import Mathlib

/-!
Verification of the grep-docx search-aggregation-and-rendering engine.

Shallow embedding of `src/grep-docx.py` (the canonical, most evolved variant,
version 1.0.9).  Pure Python functions become Lean functions; the mutable
`results` dictionary becomes an explicit `Results` record threaded through the
per-file loop; `sys.exit` calls become an explicit `StepResult.halt` outcome;
printed output and log messages become explicit string lists.  External
collaborators (the compiled regex, the .docx document reader, Unicode NFC
normalization, `pathlib`'s absolute-URI builder, the reported terminal size)
are modelled as function parameters, exactly as the spec treats them.
-/

namespace GrepDocx

/-! ## Small Python string helpers -/

/-- The whitespace characters of Python's `str.strip` / `textwrap`
(ASCII portion: space, tab, newline, vertical tab, form feed, carriage
return). -/
def isPyWs (c : Char) : Bool :=
  c = ' ' || c = '\t' || c = '\n' || c = '\x0b' || c = '\x0c' || c = '\r'

/-- Python `str.strip()` on a character list: drop whitespace at both ends. -/
def pyStripChars (l : List Char) : List Char :=
  ((l.dropWhile isPyWs).reverse.dropWhile isPyWs).reverse

/-- Python `str.strip()`. -/
def pyStrip (s : String) : String :=
  String.mk (pyStripChars s.data)

/-- Python `str.lower()` (ASCII model; every value compared in the source is
ASCII). -/
def pyLower (s : String) : String :=
  String.mk (s.data.map Char.toLower)

/-- Numeric value of a digit string. -/
def digitsVal : List Char → Nat
  | [] => 0
  | c :: cs => digitsVal cs + c.toNat % 48 * 10 ^ cs.length

/-- Python `int(s)` on its common successful forms: optional surrounding
whitespace, an optional sign, then one or more ASCII digits; anything else
raises `ValueError`, modelled as `none`.  (Underscore digit separators and
non-ASCII digits are not modelled; no input considered here uses them.) -/
def pyInt (s : String) : Option Int :=
  match pyStripChars s.data with
  | '+' :: ds => if ds ≠ [] ∧ ds.all Char.isDigit then some (digitsVal ds) else none
  | '-' :: ds => if ds ≠ [] ∧ ds.all Char.isDigit then some (-(digitsVal ds : Int)) else none
  | ds => if ds ≠ [] ∧ ds.all Char.isDigit then some (digitsVal ds) else none

/-- Does `needle` occur at the head of `hay`? -/
def leadsWith : List Char → List Char → Bool
  | [], _ => true
  | _ :: _, [] => false
  | a :: as, b :: bs => a = b && leadsWith as bs

/-- Python's `needle in hay` substring test. -/
def hasSub (hay needle : List Char) : Bool :=
  match hay with
  | [] => leadsWith needle []
  | _ :: t => leadsWith needle hay || hasSub t needle

/-- Substring test on strings (Python `"x" in s`). -/
def strContains (hay needle : String) : Bool :=
  hasSub hay.data needle.data

/-! ## Process environment

`os.environ` is modelled as an association list with unique keys
(first-match lookup). -/

/-- Embedding of `os.environ.get(k)`. -/
def envGet (env : List (String × String)) (k : String) : Option String :=
  (env.find? (fun e => e.1 == k)).map (·.2)

/-- Python `k in os.environ`. -/
def envHas (env : List (String × String)) (k : String) : Bool :=
  (envGet env k).isSome

/-! ## Terminal capability detection (`supports_hyperlink`, lines 414-513)

`sys.stdout.isatty()` is modelled as the Boolean parameter `isatty`. -/

/-- Embedding of `supports_hyperlink()`.  Mirrors the source's control flow
exactly: note that in the source, when `int(vte)` raises `ValueError`, the
`except` block computes a digits-only fallback value `parsed` and then
executes an unconditional `return False` (line 466), so the fallback value is
never used and the lower-priority checks are never reached. -/
def supports_hyperlink (isatty : Bool) (env : List (String × String)) : Bool :=
  if !isatty then false
  else if envHas env "DOMTERM" then true
  else if envHas env "WT_SESSION" then true
  else if envHas env "KONSOLE_VERSION" then true
  else
    -- VTE_VERSION block (lines 453-468); `if vte:` is false for absent or empty
    let vteOutcome : Option Bool :=
      match envGet env "VTE_VERSION" with
      | some v =>
        if v ≠ "" then
          match pyInt v with
          | some parsed => if parsed ≥ 5000 then some true else none
          | none => some false  -- `except ValueError:` ends in `return False`
        else none
      | none => none
    match vteOutcome with
    | some b => b
    | none =>
      let term_program := pyStrip ((envGet env "TERM_PROGRAM").getD "")
      if term_program ≠ "" ∧
          term_program ∈ ["iTerm.app", "WezTerm", "Hyper", "terminology",
                          "vscode", "vscode-insiders"] then true
      else
        let term := pyStrip ((envGet env "TERM").getD "")
        if term ≠ "" ∧
            term ∈ ["xterm-kitty", "kitty", "alacritty", "alacritty-direct",
                    "konsole"] then true
        else
          let colorterm := pyStrip (pyLower ((envGet env "COLORTERM").getD ""))
          if colorterm ≠ "" then
            if strContains colorterm "truecolor" || strContains colorterm "24bit" then true
            else if colorterm = "xfce4-terminal" then true
            else false
          else false

/-! ## ANSI coloring and OSC 8 hyperlinks (`colorize`, `make_hyperlink`) -/

/-- Embedding of `colorize(text, color_code)` (line 352): wrap text in ANSI
color codes. -/
def colorize (text : String) (color_code : String) : String :=
  "\x1b[" ++ color_code ++ "m" ++ text ++ "\x1b[0m"

/-- Embedding of `make_hyperlink(path)` (lines 335-350) at its default
`label=None`, so the visible label is the path itself.  The absolute file
URI `Path(path).absolute().as_uri()` is produced by `pathlib` (an external
collaborator) and is modelled by the parameter `toUri`. -/
def make_hyperlink (toUri : String → String) (path : String) : String :=
  "\x1b]8;;" ++ toUri path ++ "\x1b\\" ++ path ++ "\x1b]8;;" ++ "\x1b\\"

/-- The ASCII escape character. -/
def ESC : Char := '\x1b'

/-- The OSC 8 opener `ESC ] 8 ; ;`. -/
def oscOpen : List Char := [ESC, ']', '8', ';', ';']

/-- The string terminator `ESC \`. -/
def oscSt : List Char := [ESC, '\\']

/-- Remove an expected literal run from the head of a character list; `none`
when the head differs. -/
def stripLead : List Char → List Char → Option (List Char)
  | [], l => some l
  | _ :: _, [] => none
  | p :: ps, c :: cs => if c = p then stripLead ps cs else none

/-- Strip the OSC 8 escape wrapper from a hyperlink string, recovering the
URI and the visible label.  Defined independently of `make_hyperlink`: it
scans for the escape delimiters. -/
def parseHyperlink (s : String) : Option (String × String) :=
  match stripLead oscOpen s.data with
  | none => none
  | some r1 =>
    let uri := r1.takeWhile (· != ESC)
    match stripLead oscSt (r1.dropWhile (· != ESC)) with
    | none => none
    | some r2 =>
      let label := r2.takeWhile (· != ESC)
      match stripLead (oscOpen ++ oscSt) (r2.dropWhile (· != ESC)) with
      | some [] => some (String.mk uri, String.mk label)
      | _ => none

/-! ## Match highlighting (`highlight_matches`, lines 356-362)

`highlight_matches` delegates to `re.Pattern.sub(replacer, text)`.  The regex
engine is an external collaborator; what belongs to this program is how `sub`
assembles its output from the match spans the engine reports: it scans left
to right, copying the text between matches verbatim and replacing each match
span by the replacer's output (`pos` advances to each match's end).  The
engine guarantees the spans are in-bounds, ordered and non-overlapping, which
`wfSpans` records. -/

/-- Embedding of `re.Pattern.sub(replacer, text)` given the list of match
spans `(start, end)` produced by the regex engine.  `prev` is the scan
position (`pos` in CPython's implementation). -/
def regex_sub (f : List Char → List Char) (text : List Char) :
    Nat → List (Nat × Nat) → List Char
  | prev, [] => text.drop prev
  | prev, (s, e) :: sp =>
      (text.drop prev).take (s - prev) ++ f ((text.drop s).take (e - s)) ++
        regex_sub f text e sp

/-- Wellformedness of a match-span list, as guaranteed by the regex engine:
spans are ordered, non-overlapping and within the text. -/
def wfSpans (n : Nat) : Nat → List (Nat × Nat) → Bool
  | _, [] => true
  | prev, (s, e) :: sp =>
      decide (prev ≤ s) && decide (s ≤ e) && decide (e ≤ n) && wfSpans n e sp

/-- The decomposition of a substitution result into alternating verbatim gaps
(taken from the original text at absolute positions) and transformed match
slices. -/
def subChunks (f : List Char → List Char) (text : List Char) :
    Nat → List (Nat × Nat) → List (List Char)
  | prev, [] => [text.drop prev]
  | prev, (s, e) :: sp =>
      (text.take s).drop prev :: f ((text.take e).drop s) ::
        subChunks f text e sp

/-- Embedding of `highlight_matches(text, pattern, color_code, ignore_case)`:
every match span is replaced by its `colorize`d self.  (The source recompiles
`pattern` with the same flags, so the spans are those of the original
regex.) -/
def highlight_matches (spans : List (Nat × Nat)) (color_code : String)
    (text : List Char) : List Char :=
  regex_sub (fun m => (colorize (String.mk m) color_code).data) text 0 spans

/-! ## Word wrapping (`textwrap.fill`)

The source calls `textwrap.fill(para_text, width=wrap_width,
initial_indent="\t", subsequent_indent="\t", break_on_hyphens=False)`
(lines 300-306).  This is CPython's `textwrap` with its remaining defaults:
`expand_tabs=True` (tab size 8), `replace_whitespace=True`,
`drop_whitespace=True`, `break_long_words=True`, `max_lines=None`.  The
embedding below follows `textwrap.TextWrapper._munge_whitespace`, `_split`
(with the simple word separator used when `break_on_hyphens` is false),
`_handle_long_word` and `_wrap_chunks`. -/

/-- Python `str.expandtabs(8)`: each tab becomes spaces up to the next
multiple of 8 columns; newline and carriage return reset the column.  The
second argument tracks the current column modulo 8. -/
def expandTabs : List Char → Nat → List Char
  | [], _ => []
  | c :: cs, col =>
    if c = '\t' then List.replicate (8 - col % 8) ' ' ++ expandTabs cs 0
    else if c = '\n' ∨ c = '\r' then c :: expandTabs cs 0
    else c :: expandTabs cs ((col + 1) % 8)

/-- The `replace_whitespace` step of `_munge_whitespace`: each whitespace
character becomes one space. -/
def replaceWs (l : List Char) : List Char :=
  l.map (fun c => if isPyWs c then ' ' else c)

/-- Split into maximal runs of whitespace / non-whitespace characters,
as `re.split` with the capturing pattern of one-or-more whitespace does
(empty pieces discarded).  `cur` is the reversed run being accumulated. -/
def splitRunsAux (cur : List Char) : List Char → List (List Char)
  | [] => [cur.reverse]
  | c :: cs =>
    match cur with
    | [] => splitRunsAux [c] cs
    | d :: _ =>
      if isPyWs c = isPyWs d then splitRunsAux (c :: cur) cs
      else cur.reverse :: splitRunsAux [c] cs

/-- Split a text into its chunk list (runs of spaces and runs of words). -/
def splitRuns (l : List Char) : List (List Char) :=
  match l with
  | [] => []
  | _ => splitRunsAux [] l

/-- Python `chunk.strip() == ''`: the chunk is entirely whitespace. -/
def isWsChunk (chunk : List Char) : Bool :=
  chunk.all isPyWs

/-- Total character count of a chunk list. -/
def sumLen (chunks : List (List Char)) : Nat :=
  (chunks.map List.length).sum

/-- The greedy inner loop of `_wrap_chunks`: move chunks onto the current
line while the accumulated length stays within `avail`.  Returns the line's
chunks and the remainder. -/
def grabChunks (avail : Nat) : Nat → List (List Char) → List (List Char) × List (List Char)
  | _, [] => ([], [])
  | curLen, c :: rest =>
    if curLen + c.length ≤ avail then
      let p := grabChunks avail (curLen + c.length) rest
      (c :: p.1, p.2)
    else ([], c :: rest)

/-- The trailing `drop_whitespace` step of `_wrap_chunks`: remove a final
all-whitespace chunk from the current line. -/
def dropTrailingWs (cur : List (List Char)) : List (List Char) :=
  match cur.reverse with
  | [] => []
  | last :: revInit => if isWsChunk last then revInit.reverse else cur

/-- The outer loop of `_wrap_chunks`.  `first` records that no line has been
emitted yet (Python's `lines` being empty), which selects the initial indent
and suppresses the leading-whitespace drop.  `fuel` bounds the iteration
count; every iteration consumes a chunk or a character, so the fuel passed by
`textwrap_wrap` is never exhausted. -/
def wrapLoop (width : Nat) (ii si : List Char) :
    Nat → Bool → List (List Char) → List (List Char)
  | 0, _, _ => []
  | _, _, [] => []
  | fuel + 1, first, c0 :: rest0 =>
    let indent := if first then ii else si
    let avail := width - indent.length
    -- drop one leading whitespace chunk (`drop_whitespace`, not before the
    -- first emitted line)
    let chunks1 := if !first && isWsChunk c0 then rest0 else c0 :: rest0
    let p := grabChunks avail 0 chunks1
    -- `_handle_long_word` with `break_long_words=True`, `break_on_hyphens=False`
    let q :=
      match p.2 with
      | c :: rem =>
        if c.length > avail then
          let spaceLeft := if avail < 1 then 1 else avail - sumLen p.1
          (p.1 ++ [c.take spaceLeft], c.drop spaceLeft :: rem)
        else (p.1, c :: rem)
      | [] => (p.1, [])
    let cur := dropTrailingWs q.1
    if cur.isEmpty then wrapLoop width ii si fuel first q.2
    else (indent ++ cur.flatten) :: wrapLoop width ii si fuel false q.2

/-- Embedding of `textwrap.wrap(text, width, initial_indent=ii,
subsequent_indent=si, break_on_hyphens=False)`. -/
def textwrap_wrap (text : String) (width : Nat) (ii si : String) : List String :=
  let chunks := splitRuns (replaceWs (expandTabs text.data 0))
  (wrapLoop width ii.data si.data (sumLen chunks + chunks.length + 1) true chunks).map
    String.mk

/-- Embedding of `textwrap.fill`: join the wrapped lines with newlines. -/
def textwrap_fill (text : String) (width : Nat) (ii si : String) : String :=
  String.intercalate "\n" (textwrap_wrap text width ii si)

/-! ## Rendering configuration

The parsed command-line flags used by the engine (a fragment of
`argparse.Namespace`). -/

structure Args where
  color : Bool
  count : Bool
  hyperlink : Bool
  hanging_indent : Bool
  ignore_case : Bool
  files_with_matches : Bool
  files_without_matches : Bool
  quiet : Bool
  no_messages : Bool
  initial_tab : Bool
deriving DecidableEq, Repr

/-! ## Output formatting (`format_matched_paragraph`, lines 274-333) -/

/-- The wrap width computed on line 298: `max(20, term_width - margin)` with
`margin = 8`.  `term_width` is `shutil.get_terminal_size((80, 20)).columns`,
an external input, modelled as an integer parameter. -/
def wrap_width (term_width : Int) : Int :=
  max 20 (term_width - 8)

/-- Embedding of `format_matched_paragraph(file_path, para_text, regex, args,
para_index)`.  The two external collaborators are parameters: `toUri` is
`pathlib`'s absolute-URI builder used by `make_hyperlink`, and `hl` is
`highlight_matches(·, regex.pattern, COLORS.RED, args.ignore_case)` (the
regex engine decides the spans).  `os.linesep` is modelled as a newline. -/
def format_matched_paragraph (toUri : String → String) (hl : String → String)
    (term_width : Int) (file_path : String) (para_text : String) (args : Args)
    (para_index : Nat) : String :=
  -- wrapping and indentation happen first, on text without color/hyperlink codes
  let body :=
    if args.hanging_indent then
      textwrap_fill para_text (wrap_width term_width).toNat "\t" "\t"
    else para_text
  -- now that the sizing is done, build the display prefix
  let displayPfx :=
    if args.hyperlink then
      make_hyperlink toUri file_path ++ " [Paragraph " ++ toString (para_index + 1) ++ "]: "
    else
      file_path ++ " [Paragraph " ++ toString (para_index + 1) ++ "]: "
  let displayPfx := if args.initial_tab then "\t" ++ displayPfx else displayPfx
  -- color/highlighting are applied after wrapping/indenting
  let displayPfx := if args.color then colorize displayPfx "32" else displayPfx
  let displayBody := if args.color then hl body else body
  if args.hanging_indent then displayPfx ++ "\n" ++ displayBody
  else displayPfx ++ displayBody

/-! ## Per-file search (`search_file`, lines 236-272)

The document reader (`docx.Document`) is an external collaborator: it turns
a path into an ordered paragraph list, or fails.  It is modelled as
`reader : String → Option (List String)`, `none` meaning the reader raised.
`regex.search` is modelled as `test : String → Bool`, and
`unicodedata.normalize("NFC", ·)` as `nfc : String → String`. -/

/-- The early-exit condition of line 260: the caller only needs existence of
a match. -/
def earlyExitMode (args : Args) : Bool :=
  args.quiet || args.files_without_matches || (args.files_with_matches && !args.count)

/-- The paragraph loop of `search_file` (lines 253-267).  `i` is the 0-based
paragraph index; `fmt` builds one formatted line from the normalized
paragraph text and its index.  Returns the accumulated formatted lines and
the matched flag. -/
def searchParas (args : Args) (test : String → Bool) (nfc : String → String)
    (fmt : String → Nat → String) : Nat → List String → List String × Bool
  | _, [] => ([], false)
  | i, para :: rest =>
    let para_text := nfc para
    if test para_text then
      if earlyExitMode args then ([], true)
      else
        (fmt para_text i :: (searchParas args test nfc fmt (i + 1) rest).1, true)
    else
      searchParas args test nfc fmt (i + 1) rest

/-- Embedding of `search_file(file_path, regex, args)`.  The third component
is the error log: when the reader fails, the error is logged unless `quiet`
or `no_messages` is set, and the file reports no matches. -/
def search_file (reader : String → Option (List String)) (test : String → Bool)
    (nfc : String → String) (toUri : String → String) (hl : String → String)
    (term_width : Int) (args : Args) (file_path : String) :
    List String × Bool × List String :=
  match reader file_path with
  | some paras =>
    let p := searchParas args test nfc
      (fun t i => format_matched_paragraph toUri hl term_width file_path t args i)
      0 paras
    (p.1, p.2, [])
  | none =>
    ([], false,
      if !(args.quiet || args.no_messages) then ["Error reading " ++ file_path] else [])

/-! ## Result aggregation (`process_file`, lines 203-234, and the file loop
of `main`, lines 130-141) -/

/-- The aggregated `results` dictionary of `main` (lines 97-102).
`matched_files` is a Python dict, modelled as an association list in
insertion order; `unmatched_files` is a Python set, modelled as a
duplicate-free list. -/
structure Results where
  matchesList : List String  -- results["matches"] (keyword-clashing name)
  match_count : Nat
  matched_files : List (String × Nat)
  unmatched_files : List String
deriving DecidableEq, Repr

/-- The empty aggregate created before the scan. -/
def emptyResults : Results :=
  { matchesList := [], match_count := 0, matched_files := [], unmatched_files := [] }

/-- Python dict assignment `d[k] = v`: update in place if the key exists,
else append. -/
def dictInsert (d : List (String × Nat)) (k : String) (v : Nat) : List (String × Nat) :=
  match d with
  | [] => [(k, v)]
  | (k', v') :: rest =>
    if k' = k then (k, v) :: rest else (k', v') :: dictInsert rest k v

/-- Python set `s.add(x)`. -/
def setAdd (s : List String) (x : String) : List String :=
  if x ∈ s then s else s ++ [x]

/-- Outcome of one `process_file` step: either the process halted via
`sys.exit(code)`, or the scan continues with updated results. -/
inductive StepResult where
  | halt (code : Nat)
  | next (r : Results)
deriving DecidableEq, Repr

/-- Embedding of `process_file(file_path, regex, args, results)`.  `sf` is
the per-file search (an instantiation of `search_file`); the second component
of the return value is the error log emitted while searching this file. -/
def process_file (sf : String → List String × Bool × List String) (args : Args)
    (results : Results) (file_path : String) : StepResult × List String :=
  let r := sf file_path
  let file_matches := r.1
  let matched := r.2.1
  let log := r.2.2
  if matched then
    if args.quiet then (.halt 0, log)  -- sys.exit(0) on line 227
    else
      (.next { results with
          match_count := results.match_count + file_matches.length,
          matched_files := dictInsert results.matched_files file_path file_matches.length,
          matchesList := results.matchesList ++ file_matches }, log)
  else
    (.next { results with
        unmatched_files := setAdd results.unmatched_files file_path }, log)

/-- The candidate loop of `main` (lines 137-138): fold `process_file` over
the candidate list, stopping if a step halts the process.  Error logs are
concatenated in order. -/
def runFiles (sf : String → List String × Bool × List String) (args : Args) :
    Results → List String → StepResult × List String
  | r, [] => (.next r, [])
  | r, f :: fs =>
    match process_file sf args r f with
    | (.halt c, log) => (.halt c, log)
    | (.next r', log) =>
      let p := runFiles sf args r' fs
      (p.1, log ++ p.2)

/-! ## Result printing (`print_results`, lines 364-412) -/

/-- Insertion into a sorted string list. -/
def insertSorted (x : String) : List String → List String
  | [] => [x]
  | y :: ys => if x ≤ y then x :: y :: ys else y :: insertSorted x ys

/-- Python `sorted` on a collection of strings. -/
def sortStrings (l : List String) : List String :=
  l.foldr insertSorted []

/-- Embedding of `print_results(results, args)`: `none` models the
`sys.exit(1)` taken in quiet mode (line 388); otherwise the printed lines,
in order. -/
def print_results (toUri : String → String) (r : Results) (args : Args) :
    Option (List String) :=
  if args.quiet then none
  else some (
    if args.files_without_matches then
      if args.hyperlink then (sortStrings r.unmatched_files).map (make_hyperlink toUri)
      else sortStrings r.unmatched_files
    else if args.files_with_matches then
      (r.matched_files.map (fun e =>
        let f := if args.hyperlink then make_hyperlink toUri e.1 else e.1
        if args.count then f ++ ": " ++ toString e.2 else f)) ++
      (if args.count then [toString r.match_count] else [])
    else if args.count then [toString r.match_count]
    else r.matchesList)

/-! ## The whole run over a candidate list (`main`, lines 122-144)

`grepRun` starts after candidate enumeration: it receives the combined
candidate list.  Its value is `(exit code, stdout lines, error log)`.  An
empty candidate list exits with status 2 before any scanning (lines
123-126); a normal completion of `main` is exit code 0. -/
def grepRun (sf : String → List String × Bool × List String)
    (toUri : String → String) (args : Args) (file_list : List String) :
    Nat × List String × List String :=
  if file_list.isEmpty then
    (2, [],
      if !(args.quiet || args.no_messages) then ["No .docx files found to search."] else [])
  else
    match runFiles sf args emptyResults file_list with
    | (.halt c, log) => (c, [], log)
    | (.next r, log) =>
      match print_results toUri r args with
      | none => (1, [], log)
      | some out => (0, out, log)

/-! ## The aggregate invariant (claim C1)

`matched_files[p] = number of rendered lines whose file is p` is stated by
attributing each rendered line to the file whose scan produced it: the
`matches` list is exactly the concatenation, in `matched_files` order, of
each matched file's own rendered lines. -/

/-- Sum of the per-file counts stored in `matched_files`. -/
def sumVals (d : List (String × Nat)) : Nat :=
  (d.map (·.2)).sum

/-- First-match lookup in the `matched_files` dict. -/
def lookupD (d : List (String × Nat)) (k : String) : Option Nat :=
  (d.find? (fun e => e.1 == k)).map (·.2)

/-- The aggregate invariant, relative to the per-file search `sf`:
the total equals the sum of the per-file counts; no unmatched file is a
`matched_files` key; each stored count is the number of rendered lines the
file's scan produced; and `matches` is the concatenation of those per-file
rendered-line lists in `matched_files` order. -/
def aggInv (sf : String → List String × Bool × List String) (r : Results) : Prop :=
  r.match_count = sumVals r.matched_files
  ∧ (∀ p ∈ r.unmatched_files, lookupD r.matched_files p = none)
  ∧ (∀ e ∈ r.matched_files, e.2 = (sf e.1).1.length)
  ∧ r.matchesList = (r.matched_files.map (fun e => (sf e.1).1)).flatten

/-- The aggregate invariant strengthened with bookkeeping for the induction:
every file recorded anywhere in the aggregate is among the already-processed
files `seen`. -/
def aggInvAux (sf : String → List String × Bool × List String)
    (seen : List String) (r : Results) : Prop :=
  aggInv sf r
  ∧ (∀ e ∈ r.matched_files, e.1 ∈ seen)
  ∧ (∀ p ∈ r.unmatched_files, p ∈ seen)

/-! ## Concrete instances used by witnesses and counterexamples -/

/-- All-flags-off rendering configuration (the default CLI invocation). -/
def cexArgs : Args := ⟨false, false, false, false, false, false, false, false, false, false⟩

/-- Quiet-mode configuration. -/
def cexArgsQ : Args := { cexArgs with quiet := true }

/-- A concrete in-memory document source: one readable document, every other
path fails to read. -/
def cexReader : String → Option (List String) :=
  fun p => if p = "a.docx" then some ["The cat sat", "No match here", "cat cat"] else none

/-- A concrete matcher, standing for a compiled regex for the pattern cat
(substring search). -/
def cexTest : String → Bool := fun s => strContains s "cat"

/-- A concrete stand-in for the absolute-file-URI builder. -/
def cexToUri : String → String := fun p => "file://" ++ p

/-- The per-file search instantiated at the concrete collaborators, default
flags. -/
def cexSf : String → List String × Bool × List String :=
  search_file cexReader cexTest (fun s => s) cexToUri (fun s => s) 80 cexArgs

/-- The per-file search instantiated at the concrete collaborators, quiet
mode. -/
def cexSfQ : String → List String × Bool × List String :=
  search_file cexReader cexTest (fun s => s) cexToUri (fun s => s) 80 cexArgsQ

/-- The aggregate after scanning the readable document once. -/
def onceRes : Results :=
  { matchesList := ["a.docx [Paragraph 1]: The cat sat", "a.docx [Paragraph 3]: cat cat"],
    match_count := 2,
    matched_files := [("a.docx", 2)],
    unmatched_files := [] }

/-- The aggregate after scanning the same readable document twice: the dict
entry was overwritten while the total and the line list kept growing. -/
def dupRes : Results :=
  { matchesList := ["a.docx [Paragraph 1]: The cat sat", "a.docx [Paragraph 3]: cat cat",
                    "a.docx [Paragraph 1]: The cat sat", "a.docx [Paragraph 3]: cat cat"],
    match_count := 4,
    matched_files := [("a.docx", 2)],
    unmatched_files := [] }

/-! ## Helper lemmas -/

theorem take_sub_append_drop (text : List Char) {p s : Nat} (hps : p ≤ s) :
    (text.drop p).take (s - p) ++ text.drop s = text.drop p := by
  have h : text.drop s = (text.drop p).drop (s - p) := by
    rw [List.drop_drop, Nat.add_sub_cancel' hps]
  rw [h, List.take_append_drop]

theorem regex_sub_id_eq (text : List Char) :
    ∀ (spans : List (Nat × Nat)) (prev : Nat),
      wfSpans text.length prev spans = true →
      regex_sub (fun l => l) text prev spans = text.drop prev := by
  intro spans
  induction spans with
  | nil => intro prev _; rfl
  | cons se sp ih =>
    obtain ⟨s, e⟩ := se
    intro prev h
    simp only [wfSpans, Bool.and_eq_true, decide_eq_true_eq] at h
    obtain ⟨⟨⟨hps, hse⟩, _⟩, hw⟩ := h
    simp only [regex_sub]
    rw [ih e hw, List.append_assoc, take_sub_append_drop text hse,
      take_sub_append_drop text hps]

theorem regex_sub_eq_chunks (f : List Char → List Char) (text : List Char) :
    ∀ (spans : List (Nat × Nat)) (prev : Nat),
      wfSpans text.length prev spans = true →
      regex_sub f text prev spans = (subChunks f text prev spans).flatten := by
  intro spans
  induction spans with
  | nil => intro prev _; simp [regex_sub, subChunks]
  | cons se sp ih =>
    obtain ⟨s, e⟩ := se
    intro prev h
    simp only [wfSpans, Bool.and_eq_true, decide_eq_true_eq] at h
    obtain ⟨⟨⟨hps, hse⟩, _⟩, hw⟩ := h
    simp only [regex_sub, subChunks, List.flatten_cons]
    rw [ih e hw, List.drop_take, List.drop_take, List.append_assoc]

theorem stripLead_append (p l : List Char) : stripLead p (p ++ l) = some l := by
  induction p with
  | nil => rfl
  | cons c cs ih => simp [stripLead, ih]

theorem takeWhile_append_esc (a b : List Char) (h : a.all (· != ESC) = true) :
    (a ++ ESC :: b).takeWhile (· != ESC) = a := by
  induction a with
  | nil => simp [List.takeWhile_cons]
  | cons c cs ih =>
    simp only [List.all_cons, Bool.and_eq_true] at h
    simp [List.takeWhile_cons, h.1, ih h.2]

theorem dropWhile_append_esc (a b : List Char) (h : a.all (· != ESC) = true) :
    (a ++ ESC :: b).dropWhile (· != ESC) = ESC :: b := by
  induction a with
  | nil => simp [List.dropWhile_cons]
  | cons c cs ih =>
    simp only [List.all_cons, Bool.and_eq_true] at h
    simp [List.dropWhile_cons, h.1, ih h.2]

theorem make_hyperlink_data (toUri : String → String) (path : String) :
    (make_hyperlink toUri path).data
      = oscOpen ++ ((toUri path).data ++
          (ESC :: '\\' :: (path.data ++ (ESC :: ']' :: '8' :: ';' :: ';' :: [ESC, '\\'])))) := by
  simp [make_hyperlink, oscOpen, ESC]

/-! ## Claim theorems -/

/-- C9: for any two process environments, if the output stream is not an
interactive terminal, capability detection returns unsupported — the
environment has no influence in the non-interactive case. -/
theorem claim_C9 (env₁ env₂ : List (String × String)) :
    supports_hyperlink false env₁ = false ∧
    supports_hyperlink false env₁ = supports_hyperlink false env₂ :=
  ⟨rfl, rfl⟩

/-- C3 (code bug): the claim says that a present but non-establishing
`VTE_VERSION` (below the 5000 threshold, or not parseable as a number) lets
evaluation proceed to the lower-priority checks.  The source instead executes
an unconditional `return False` inside the `except ValueError` handler
(line 466), right after computing a digits-only fallback that is therefore
dead code.  On an interactive terminal with `VTE_VERSION=0.52.2` and
`TERM=kitty`, the detector answers unsupported even though the lower-priority
TERM check alone answers supported. -/
theorem claim_C3 :
    supports_hyperlink true [("VTE_VERSION", "0.52.2"), ("TERM", "kitty")] = false ∧
    supports_hyperlink true [("TERM", "kitty")] = true ∧
    supports_hyperlink true [("VTE_VERSION", "4000"), ("TERM", "kitty")] = true := by
  refine ⟨by decide, by decide, by decide⟩

/-- C7: match highlighting (the substitution underlying
`highlight_matches`) is a no-op under the identity transform; with zero
match spans any transform leaves the text unchanged; and in all cases the
characters outside the match spans are copied verbatim, the result being
exactly the alternation of the original inter-span gaps with the transformed
slices. -/
theorem claim_C7 (text : List Char) (spans : List (Nat × Nat))
    (f : List Char → List Char) :
    (wfSpans text.length 0 spans = true →
      regex_sub (fun l => l) text 0 spans = text) ∧
    regex_sub f text 0 [] = text ∧
    (wfSpans text.length 0 spans = true →
      regex_sub f text 0 spans = (subChunks f text 0 spans).flatten) := by
  refine ⟨fun h => ?_, rfl, fun h => regex_sub_eq_chunks f text spans 0 h⟩
  have := regex_sub_id_eq text spans 0 h
  simpa using this

/-- Witness for C7 at a concrete text and span list. -/
theorem claim_C7_witness :
    wfSpans ("the cat sat".data).length 0 [(4, 7)] = true ∧
    regex_sub (fun l => l) "the cat sat".data 0 [(4, 7)] = "the cat sat".data ∧
    regex_sub (fun m => (colorize (String.mk m) "31").data) "the cat sat".data 0 [(4, 7)]
      = (subChunks (fun m => (colorize (String.mk m) "31").data) "the cat sat".data 0 [(4, 7)]).flatten := by
  refine ⟨by decide, ?_, ?_⟩
  · exact (claim_C7 "the cat sat".data [(4, 7)] (fun l => l)).1 (by decide)
  · exact (claim_C7 "the cat sat".data [(4, 7)]
      (fun m => (colorize (String.mk m) "31").data)).2.2 (by decide)

/-- C8: the hyperlink string has exactly the OSC 8 shape
`ESC ] 8 ; ; URI ESC \ label ESC ] 8 ; ; ESC \`, with the URI built from the
path's absolute form (`toUri`, modelling `Path(path).absolute().as_uri()`)
and the path itself as the visible label; stripping the escape wrapper
recovers exactly that URI and label.  The hypotheses record that neither the
URI nor the path contains a raw ESC character (file URIs percent-encode
control characters). -/
theorem claim_C8 (toUri : String → String) (path : String)
    (hu : (toUri path).data.all (· != ESC) = true)
    (hp : path.data.all (· != ESC) = true) :
    make_hyperlink toUri path
      = "\x1b]8;;" ++ toUri path ++ "\x1b\\" ++ path ++ "\x1b]8;;" ++ "\x1b\\"
    ∧ parseHyperlink (make_hyperlink toUri path) = some (toUri path, path) := by
  refine ⟨rfl, ?_⟩
  simp only [parseHyperlink, make_hyperlink_data, stripLead_append]
  rw [takeWhile_append_esc _ _ hu, dropWhile_append_esc _ _ hu]
  simp only [oscSt, stripLead]
  simp only [reduceIte]
  rw [takeWhile_append_esc _ _ hp, dropWhile_append_esc _ _ hp]
  simp [oscOpen, stripLead]

/-- Witness for C8 at a concrete path and URI builder. -/
theorem claim_C8_witness :
    parseHyperlink (make_hyperlink (fun p => "file://" ++ p) "/docs/a.docx")
      = some ("file:///docs/a.docx", "/docs/a.docx") :=
  (claim_C8 (fun p => "file://" ++ p) "/docs/a.docx" (by decide) (by decide)).2

/-- C10: the paragraph loop tests the pattern against the NFC normal form of
each paragraph and builds rendered-line bodies from that normalized text:
scanning with normalization equals scanning the pre-normalized paragraph
stream with no normalization, and a file's matched flag is true exactly when
some paragraph's normalized (composed) form matches. -/
theorem claim_C10 (args : Args) (test : String → Bool) (nfc : String → String)
    (fmt : String → Nat → String) :
    ∀ (ps : List String) (i : Nat),
      searchParas args test nfc fmt i ps
        = searchParas args test (fun s => s) fmt i (ps.map nfc)
      ∧ (searchParas args test nfc fmt i ps).2 = ps.any (fun p => test (nfc p)) := by
  intro ps
  induction ps with
  | nil => intro i; exact ⟨rfl, rfl⟩
  | cons p rest ih =>
    intro i
    constructor
    · simp only [List.map_cons, searchParas]
      cases h : test (nfc p) with
      | true => cases he : earlyExitMode args <;> simp [h, he, (ih (i + 1)).1]
      | false => simp [h, (ih (i + 1)).1]
    · simp only [searchParas, List.any_cons]
      cases h : test (nfc p) with
      | true => cases he : earlyExitMode args <;> simp [h, he]
      | false => simp [h, (ih (i + 1)).2]

/-- The paragraph loop in an existence-only mode: a first match anywhere
makes the whole scan return immediately with no rendered lines, regardless
of what follows the matching paragraph and of the line formatter. -/
theorem searchParas_early_exit (args : Args) (test : String → Bool)
    (nfc : String → String) (hee : earlyExitMode args = true) :
    ∀ (pre : List String) (p : String) (post : List String)
      (fmt : String → Nat → String) (i : Nat),
      (∀ q ∈ pre, test (nfc q) = false) → test (nfc p) = true →
      searchParas args test nfc fmt i (pre ++ p :: post) = ([], true) := by
  intro pre
  induction pre with
  | nil =>
    intro p post fmt i _ hp
    simp [searchParas, hp, hee]
  | cons q pre ih =>
    intro p post fmt i hpre hp
    have hq : test (nfc q) = false := hpre q (by simp)
    simp only [List.cons_append, searchParas, hq]
    exact ih p post fmt (i + 1) (fun x hx => hpre x (by simp [hx])) hp

/-- C4: in Quiet mode, or FilesWithoutMatches mode, or FilesWithMatches mode
without the count option, the per-file scan stops at the first matching
paragraph: it returns an empty rendered-line list and a true matched flag,
independently of every later paragraph (no further paragraph is tested) and
of the line formatter (no formatted line is computed); `search_file` then
reports exactly `([], true)` with no error log. -/
theorem claim_C4 (reader : String → Option (List String)) (test : String → Bool)
    (nfc : String → String) (toUri : String → String) (hl : String → String)
    (tw : Int) (args : Args) (fp : String) (pre : List String) (p : String)
    (post : List String)
    (hee : earlyExitMode args = true)
    (hpre : ∀ q ∈ pre, test (nfc q) = false)
    (hp : test (nfc p) = true) :
    (∀ (fmt : String → Nat → String) (i : Nat) (post' : List String),
      searchParas args test nfc fmt i (pre ++ p :: post') = ([], true))
    ∧ (reader fp = some (pre ++ p :: post) →
        search_file reader test nfc toUri hl tw args fp = ([], true, [])) := by
  constructor
  · intro fmt i post'
    exact searchParas_early_exit args test nfc hee pre p post' fmt i hpre hp
  · intro hr
    simp [search_file, hr, searchParas_early_exit args test nfc hee pre p post _ 0 hpre hp]

/-- Witness for C4: quiet mode, a three-paragraph document whose second
paragraph is the first match. -/
theorem claim_C4_witness :
    searchParas cexArgsQ cexTest (fun s => s) (fun t _ => t) 0
      ["No match here", "The cat sat", "cat cat"] = ([], true) :=
  (claim_C4 cexReader cexTest (fun s => s) cexToUri (fun s => s) 80 cexArgsQ
    "a.docx" ["No match here"] "The cat sat" ["cat cat"] rfl
    (by decide) (by decide)).1 (fun t _ => t) 0 ["cat cat"]

/-- C5: a candidate whose document reader fails does not abort the run: the
per-file search reports no matches and logs the error unless quiet or
no-messages is set; `process_file` only adds the file to the unmatched set,
leaving every other aggregate component unchanged; and the candidate loop
continues with the remaining files from that updated state. -/
theorem claim_C5 (reader : String → Option (List String)) (test : String → Bool)
    (nfc : String → String) (toUri : String → String) (hl : String → String)
    (tw : Int) (args : Args) (r : Results) (fp : String) (fs : List String)
    (hfail : reader fp = none) :
    search_file reader test nfc toUri hl tw args fp
      = ([], false,
          if !(args.quiet || args.no_messages) then ["Error reading " ++ fp] else [])
    ∧ process_file (search_file reader test nfc toUri hl tw args) args r fp
      = (.next { r with unmatched_files := setAdd r.unmatched_files fp },
          if !(args.quiet || args.no_messages) then ["Error reading " ++ fp] else [])
    ∧ runFiles (search_file reader test nfc toUri hl tw args) args r (fp :: fs)
      = ((runFiles (search_file reader test nfc toUri hl tw args) args
            { r with unmatched_files := setAdd r.unmatched_files fp } fs).1,
          (if !(args.quiet || args.no_messages) then ["Error reading " ++ fp] else [])
            ++ (runFiles (search_file reader test nfc toUri hl tw args) args
                  { r with unmatched_files := setAdd r.unmatched_files fp } fs).2) := by
  refine ⟨by simp [search_file, hfail], by simp [process_file, search_file, hfail], ?_⟩
  simp [runFiles, process_file, search_file, hfail]

/-- Witness for C5: the unreadable document is recorded as unmatched and
logged, with default flags. -/
theorem claim_C5_witness :
    process_file cexSf cexArgs emptyResults "b.docx"
      = (.next { matchesList := [], match_count := 0, matched_files := [],
                  unmatched_files := ["b.docx"] },
          ["Error reading b.docx"]) :=
  (claim_C5 cexReader cexTest (fun s => s) cexToUri (fun s => s) 80 cexArgs
    emptyResults "b.docx" [] rfl).2.1

theorem mem_of_mem_ite {α : Type} {c : Prop} [Decidable c] {a b : List α} {x : α}
    (h : x ∈ if c then a else b) : x ∈ a ∨ x ∈ b := by
  by_cases hc : c
  · rw [if_pos hc] at h; exact Or.inl h
  · rw [if_neg hc] at h; exact Or.inr h

/-- Every line emitted by the wrap loop starts with the indent (here the
initial and subsequent indents coincide, as in the source where both are one
tab). -/
theorem wrapLoop_indent (width : Nat) (ind : List Char) :
    ∀ (fuel : Nat) (first : Bool) (chunks : List (List Char)) (l : List Char),
      l ∈ wrapLoop width ind ind fuel first chunks → ∃ r, l = ind ++ r := by
  intro fuel
  induction fuel with
  | zero => intro first chunks l h; simp [wrapLoop] at h
  | succ fuel ih =>
    intro first chunks l h
    cases chunks with
    | nil => simp [wrapLoop] at h
    | cons c0 rest0 =>
      simp only [wrapLoop, ite_self] at h
      rcases mem_of_mem_ite h with h | h
      · exact ih _ _ _ h
      · rcases List.mem_cons.mp h with h1 | h2
        · exact ⟨_, h1⟩
        · exact ih _ _ _ h2

/-- C6: with hanging indent requested, the wrap width is
`max(20, terminalColumns - 8)`, hence at least 20 for every reported width
(zero and negative included); the rendered line is the styled prefix, a line
break, and the paragraph body word-wrapped as plain text before any color or
hyperlink styling is applied to it; and every wrapped sub-line, the first
included, starts with one tab character. -/
theorem claim_C6 (toUri hl : String → String) (tw : Int) (fp para : String)
    (args : Args) (i : Nat) (hhi : args.hanging_indent = true) :
    20 ≤ wrap_width tw
    ∧ format_matched_paragraph toUri hl tw fp para args i =
        (let pfx0 := if args.hyperlink then
            make_hyperlink toUri fp ++ " [Paragraph " ++ toString (i + 1) ++ "]: "
          else fp ++ " [Paragraph " ++ toString (i + 1) ++ "]: "
         let pfx1 := if args.initial_tab then "\t" ++ pfx0 else pfx0
         let body := textwrap_fill para (wrap_width tw).toNat "\t" "\t"
         (if args.color then colorize pfx1 "32" else pfx1) ++ "\n" ++
           (if args.color then hl body else body))
    ∧ ∀ l ∈ textwrap_wrap para (wrap_width tw).toNat "\t" "\t",
        ∃ r, l.data = '\t' :: r := by
  refine ⟨le_max_left _ _, ?_, ?_⟩
  · simp only [format_matched_paragraph, hhi, if_true]
  · intro l hm
    simp only [textwrap_wrap] at hm
    rcases List.mem_map.mp hm with ⟨l0, hmem, rfl⟩
    rcases wrapLoop_indent _ _ _ _ _ _ hmem with ⟨r, hr⟩
    exact ⟨r, by rw [hr]; rfl⟩

/-- Witness for C6 at terminal width 30 and a concrete paragraph. -/
theorem claim_C6_witness :
    20 ≤ wrap_width 30
    ∧ ∀ l ∈ textwrap_wrap "alpha beta gamma delta epsilon" (wrap_width 30).toNat "\t" "\t",
        ∃ r, l.data = '\t' :: r :=
  ⟨(claim_C6 cexToUri (fun s => s) 30 "a.docx" "alpha beta gamma delta epsilon"
      { cexArgs with hanging_indent := true } 0 rfl).1,
   (claim_C6 cexToUri (fun s => s) 30 "a.docx" "alpha beta gamma delta epsilon"
      { cexArgs with hanging_indent := true } 0 rfl).2.2⟩

/-- In quiet mode, the candidate loop halts with exit status 0 at the first
matching file: the result is fully determined by the files up to and
including the first match, with no dependence on the remaining candidates. -/
theorem runFiles_halt_of_match (sf : String → List String × Bool × List String)
    (args : Args) (hq : args.quiet = true) :
    ∀ (pre : List String) (f : String) (post : List String) (r : Results),
      (∀ g ∈ pre, (sf g).2.1 = false) → (sf f).2.1 = true →
      runFiles sf args r (pre ++ f :: post)
        = (.halt 0, (pre.map (fun g => (sf g).2.2)).flatten ++ (sf f).2.2) := by
  intro pre
  induction pre with
  | nil =>
    intro f post r _ hf
    simp [runFiles, process_file, hf, hq]
  | cons g pre ih =>
    intro f post r hpre hf
    have hg : (sf g).2.1 = false := hpre g (by simp)
    simp only [List.cons_append, runFiles, process_file, hg, Bool.false_eq_true,
      if_false, List.append_eq]
    rw [ih f post _ (fun x hx => hpre x (by simp [hx])) hf]
    simp [List.append_assoc]

/-- When no candidate matches, the loop runs to completion, producing some
final aggregate and the concatenated per-file logs. -/
theorem runFiles_no_match (sf : String → List String × Bool × List String)
    (args : Args) :
    ∀ (l : List String) (r : Results), (∀ g ∈ l, (sf g).2.1 = false) →
      ∃ r', runFiles sf args r l
        = (.next r', (l.map (fun g => (sf g).2.2)).flatten) := by
  intro l
  induction l with
  | nil => intro r _; exact ⟨r, by simp [runFiles]⟩
  | cons g gs ih =>
    intro r hpre
    have hg : (sf g).2.1 = false := hpre g (by simp)
    rcases ih { r with unmatched_files := setAdd r.unmatched_files g }
      (fun x hx => hpre x (by simp [hx])) with ⟨r', hr⟩
    refine ⟨r', ?_⟩
    simp only [runFiles, process_file, hg, Bool.false_eq_true, if_false]
    rw [hr]
    simp

/-- C2 (amended): in Quiet mode, over every nonempty candidate list and
document contents assignment, as soon as any file yields a match the run
halts with exit code 0, produces no normal output, and its entire outcome is
independent of the candidates after the first matching file (they are never
read); if no candidate matches, the run ends with exit code 1 and no normal
output.  (An empty candidate list instead takes the distinct no-candidates
exit, status 2 — see the counterexample.) -/
theorem claim_C2 (sf : String → List String × Bool × List String)
    (toUri : String → String) (args : Args) (hq : args.quiet = true) :
    (∀ (pre : List String) (f : String) (post : List String),
      (∀ g ∈ pre, (sf g).2.1 = false) → (sf f).2.1 = true →
      (grepRun sf toUri args (pre ++ f :: post)).1 = 0
      ∧ (grepRun sf toUri args (pre ++ f :: post)).2.1 = []
      ∧ ∀ post', grepRun sf toUri args (pre ++ f :: post)
            = grepRun sf toUri args (pre ++ f :: post'))
    ∧ ∀ l, l ≠ [] → (∀ g ∈ l, (sf g).2.1 = false) →
      (grepRun sf toUri args l).1 = 1 ∧ (grepRun sf toUri args l).2.1 = [] := by
  constructor
  · intro pre f post hpre hf
    have hne : (pre ++ f :: post).isEmpty = false := by cases pre <;> simp
    have hrun := runFiles_halt_of_match sf args hq pre f post emptyResults hpre hf
    refine ⟨by simp [grepRun, hne, hrun], by simp [grepRun, hne, hrun], ?_⟩
    intro post'
    have hne' : (pre ++ f :: post').isEmpty = false := by cases pre <;> simp
    have hrun' := runFiles_halt_of_match sf args hq pre f post' emptyResults hpre hf
    simp [grepRun, hne, hne', hrun, hrun']
  · intro l hl hpre
    rcases runFiles_no_match sf args l emptyResults hpre with ⟨r', hr⟩
    have hne : l.isEmpty = false := by
      cases l with
      | nil => exact absurd rfl hl
      | cons a b => simp
    constructor <;> simp [grepRun, hne, hr, print_results, hq]

/-- Counterexample for C2 as stated: with an empty candidate list (which
vacuously has no matching candidate), the quiet run exits with status 2 (the
distinct no-candidates failure), not with status 1 as the claim requires for
every candidate list. -/
theorem claim_C2_cex : grepRun cexSfQ cexToUri cexArgsQ [] = (2, [], []) := rfl

/-- Witness for C2 at a concrete quiet run: an unreadable file followed by
the matching document and a further candidate. -/
theorem claim_C2_witness :
    (grepRun cexSfQ cexToUri cexArgsQ (["b.docx"] ++ "a.docx" :: ["c.docx"])).1 = 0
    ∧ (grepRun cexSfQ cexToUri cexArgsQ (["b.docx"] ++ "a.docx" :: ["c.docx"])).2.1 = []
    ∧ ∀ post', grepRun cexSfQ cexToUri cexArgsQ (["b.docx"] ++ "a.docx" :: ["c.docx"])
          = grepRun cexSfQ cexToUri cexArgsQ (["b.docx"] ++ "a.docx" :: post') :=
  (claim_C2 cexSfQ cexToUri cexArgsQ rfl).1 ["b.docx"] "a.docx" ["c.docx"]
    (by decide) (by decide)

theorem mem_setAdd {s : List String} {x p : String} :
    p ∈ setAdd s x ↔ p ∈ s ∨ p = x := by
  by_cases h : x ∈ s
  · simp only [setAdd, if_pos h]
    constructor
    · exact Or.inl
    · rintro (hp | rfl)
      · exact hp
      · exact h
  · simp [setAdd, if_neg h]

theorem dictInsert_of_not_mem {d : List (String × Nat)} {k : String} (v : Nat)
    (h : ∀ e ∈ d, e.1 ≠ k) : dictInsert d k v = d ++ [(k, v)] := by
  induction d with
  | nil => rfl
  | cons e rest ih =>
    obtain ⟨k', v'⟩ := e
    have he : k' ≠ k := h (k', v') (by simp)
    simp [dictInsert, he, ih (fun x hx => h x (by simp [hx]))]

theorem lookupD_eq_none {d : List (String × Nat)} {p : String}
    (h : ∀ e ∈ d, e.1 ≠ p) : lookupD d p = none := by
  induction d with
  | nil => rfl
  | cons e rest ih =>
    have hne : (e.1 == p) = false := by
      simpa using h e (by simp)
    simp only [lookupD, List.find?_cons, hne]
    exact ih (fun x hx => h x (by simp [hx]))

theorem lookupD_append_single_ne {d : List (String × Nat)} {k p : String} {v : Nat}
    (hne : p ≠ k) (h : lookupD d p = none) : lookupD (d ++ [(k, v)]) p = none := by
  have hd : d.find? (fun e => e.1 == p) = none := by
    simpa [lookupD] using h
  have hk : ((k, v).1 == p) = false := by simpa using (Ne.symm hne)
  simp [lookupD, List.find?_append, hd, List.find?_cons, hk]

/-- One `process_file` step that continues the run preserves the aggregate
invariant, provided the file has not been processed before. -/
theorem process_file_next_inv (sf : String → List String × Bool × List String)
    (args : Args) {seen : List String} {r : Results} {f : String}
    {r' : Results} {log : List String}
    (hinv : aggInvAux sf seen r) (hf : f ∉ seen)
    (hstep : process_file sf args r f = (.next r', log)) :
    aggInvAux sf (f :: seen) r' := by
  obtain ⟨⟨hsum, hdisj, hcnt, hjoin⟩, hkeys, hunm⟩ := hinv
  have hfkeys : ∀ e ∈ r.matched_files, e.1 ≠ f :=
    fun e he heq => hf (heq ▸ hkeys e he)
  cases hm : (sf f).2.1 with
  | true =>
    cases hq : args.quiet with
    | true => simp [process_file, hm, hq] at hstep
    | false =>
      simp only [process_file, hm, hq, Bool.false_eq_true, if_false, if_true,
        Prod.mk.injEq, StepResult.next.injEq] at hstep
      obtain ⟨hr', _⟩ := hstep
      subst hr'
      have hins := dictInsert_of_not_mem (sf f).1.length hfkeys
      refine ⟨⟨?_, ?_, ?_, ?_⟩, ?_, ?_⟩
      · simp [sumVals, hins, List.map_append, hsum]
      · intro p hp
        have hpseen := hunm p hp
        exact hins ▸ lookupD_append_single_ne (fun heq => hf (heq ▸ hpseen)) (hdisj p hp)
      · intro e he
        rw [hins] at he
        rcases List.mem_append.mp he with h1 | h2
        · exact hcnt e h1
        · simp at h2
          simp [h2]
      · simp [hins, List.map_append, hjoin]
      · intro e he
        rw [hins] at he
        rcases List.mem_append.mp he with h1 | h2
        · exact List.mem_cons_of_mem _ (hkeys e h1)
        · simp at h2
          simp [h2]
      · exact fun p hp => List.mem_cons_of_mem _ (hunm p hp)
  | false =>
    simp only [process_file, hm, Bool.false_eq_true, if_false, Prod.mk.injEq,
      StepResult.next.injEq] at hstep
    obtain ⟨hr', _⟩ := hstep
    subst hr'
    refine ⟨⟨hsum, ?_, hcnt, hjoin⟩, fun e he => List.mem_cons_of_mem _ (hkeys e he), ?_⟩
    · intro p hp
      rcases mem_setAdd.mp hp with h1 | rfl
      · exact hdisj p h1
      · exact lookupD_eq_none hfkeys
    · intro p hp
      rcases mem_setAdd.mp hp with h1 | rfl
      · exact List.mem_cons_of_mem _ (hunm p h1)
      · exact List.mem_cons_self _ _

/-- Folding the candidate loop over duplicate-free unseen files preserves the
aggregate invariant whenever the loop runs to completion. -/
theorem runFiles_next_inv (sf : String → List String × Bool × List String)
    (args : Args) :
    ∀ (l : List String) (seen : List String) (r : Results),
      aggInvAux sf seen r → (∀ f ∈ l, f ∉ seen) → l.Nodup →
      ∀ (r' : Results) (log : List String),
        runFiles sf args r l = (.next r', log) →
        ∃ seen', aggInvAux sf seen' r' := by
  intro l
  induction l with
  | nil =>
    intro seen r hinv _ _ r' log hrun
    simp only [runFiles, Prod.mk.injEq, StepResult.next.injEq] at hrun
    exact ⟨seen, hrun.1 ▸ hinv⟩
  | cons f fs ih =>
    intro seen r hinv hnotin hnd r' log hrun
    obtain ⟨hfnfs, hndfs⟩ := List.nodup_cons.mp hnd
    rcases hstep : process_file sf args r f with ⟨o, lg⟩
    cases o with
    | halt c => simp [runFiles, hstep] at hrun
    | next r1 =>
      simp only [runFiles, hstep] at hrun
      have hinv1 := process_file_next_inv sf args hinv (hnotin f (by simp)) hstep
      rcases hlast : runFiles sf args r1 fs with ⟨o2, lg2⟩
      rw [hlast] at hrun
      cases o2 with
      | halt c => simp at hrun
      | next r2 =>
        simp only [Prod.mk.injEq, StepResult.next.injEq] at hrun
        refine ih (f :: seen) r1 hinv1 ?_ hndfs r' lg2 ?_
        · intro g hg
          simp only [List.mem_cons]
          rintro (rfl | hseen)
          · exact hfnfs hg
          · exact hnotin g (by simp [hg]) hseen
        · rw [hlast, hrun.1]

/-- C1 (amended): over every duplicate-free candidate list, after every
prefix of the run (hence in every intermediate state between two files and
at the end), the aggregate satisfies the invariant: the total match count is
the sum of the per-file counts; each stored count is the number of rendered
lines produced for that file, and the rendered-line list is exactly those
per-file lists concatenated in first-seen order; and the unmatched set is
disjoint from the matched-files keys.  (When the same path occurs twice in
the candidate list the invariant fails — see the counterexample.) -/
theorem claim_C1 (sf : String → List String × Bool × List String) (args : Args)
    (l₁ l₂ : List String) (r : Results) (log : List String)
    (hnd : (l₁ ++ l₂).Nodup)
    (hrun : runFiles sf args emptyResults l₁ = (.next r, log)) :
    aggInv sf r := by
  have h0 : aggInvAux sf [] emptyResults := by
    refine ⟨⟨rfl, ?_, ?_, rfl⟩, ?_, ?_⟩ <;>
      intro x hx <;> simp [emptyResults] at hx
  rcases runFiles_next_inv sf args l₁ [] emptyResults h0
    (fun f _ => List.not_mem_nil f) hnd.of_append_left r log hrun with ⟨seen', hinv⟩
  exact hinv.1

/-- Witness for C1: the invariant after scanning one readable document, with
one more (unprocessed) candidate pending. -/
theorem claim_C1_witness : aggInv cexSf onceRes :=
  claim_C1 cexSf cexArgs ["a.docx"] ["b.docx"] onceRes [] (by decide) rfl

/-- Counterexample for C1 as stated: when the same path occurs twice in the
candidate list (the claim mandates no implicit deduplication), the total
match count keeps accumulating while the dict entry is overwritten, so
`match_count` (4) no longer equals the sum of the per-file counts (2), and
the stored count (2) no longer equals the number of rendered lines from that
file (4). -/
theorem claim_C1_cex :
    runFiles cexSf cexArgs emptyResults ["a.docx", "a.docx"] = (.next dupRes, [])
    ∧ dupRes.match_count = 4
    ∧ sumVals dupRes.matched_files = 2
    ∧ dupRes.matchesList.length = 4
    ∧ dupRes.match_count ≠ sumVals dupRes.matched_files :=
  ⟨rfl, rfl, rfl, rfl, by decide⟩

end GrepDocx
